import Mathlib

/-!
Verification of the MARC subdivision-classification and field-assembly core
of the subject_heading repository.

The embedding translates the deterministic, pure parts of
src/marc_65x_builder.py (class MARC65XBuilder) and src/marc_builder.py
(class MARCBuilder).  Python strings are modelled as lists of characters
(Str := List Char); str.lower() as an ASCII lowering map; re.search of the
ASCII-literal / digit-class regexes used by the code as a left-to-right scan
over all start positions.  All definitions are executable.
-/

namespace Marc

/-- Python strings are modelled as lists of characters. -/
abbrev Str := List Char

/-- Shorthand turning a Lean string literal into the list-of-characters model. -/
def ls (s : String) : Str := s.toList

/-- ASCII lowering of one character; embeds what Python str.lower does on the
ASCII range.  All patterns in the source are ASCII, so this is faithful for
ASCII inputs. -/
def lowerChar (c : Char) : Char :=
  if 'A' ≤ c ∧ c ≤ 'Z' then Char.ofNat (c.toNat + 32) else c

/-- Embeds Python str.lower restricted to ASCII. -/
def asciiLower (l : Str) : Str := l.map lowerChar

/-- ASCII whitespace recognized by Python str.strip. -/
def isSpace (c : Char) : Bool :=
  c == ' ' || c == '\t' || c == '\n' || c == '\r' || c == '\x0b' || c == '\x0c'

/-- Embeds Python str.strip: drop whitespace from both ends. -/
def pyStrip (l : Str) : Str :=
  ((l.dropWhile isSpace).reverse.dropWhile isSpace).reverse

/-- Regex word character (ASCII part of Python re \w): letter, digit or underscore. -/
def wordChar (c : Char) : Bool := c.isAlphanum || c == '_'

/-- True when position j of l is past the end or holds a non-word character;
this is the regex word-boundary condition on the right of a word. -/
def notWordAt (l : Str) (j : Nat) : Bool :=
  match l[j]? with
  | some c => !wordChar c
  | none => true

/-- True when position j of l holds an ASCII digit (regex backslash-d). -/
def digAt (l : Str) (j : Nat) : Bool :=
  match l[j]? with
  | some c => c.isDigit
  | none => false

/-- Literal-pattern check at the start of the remaining text: the remainder
begins with p. -/
def chkLit (p : Str) (t : Str) : Bool := decide (t.take p.length = p)

/-- Left-to-right scan over every start position of the text, the model of
re.search / the Python `in` operator for one fixed pattern check. -/
def scanP (chk : Str → Bool) : Str → Bool
  | [] => chk []
  | c :: rest => chk (c :: rest) || scanP chk rest

/-- Like scanP but threads whether the previous character was a word
character, the model of re.search for a pattern beginning with a
word-boundary anchor. -/
def scanWB (chk : Str → Bool) (prevWord : Bool) : Str → Bool
  | [] => !prevWord && chk []
  | c :: rest => (!prevWord && chk (c :: rest)) || scanWB chk (wordChar c) rest

/-- Left-to-right scan returning the first position where f yields a result,
the model of re.search returning a match object. -/
def scanO (f : Str → Option Str) : Str → Option Str
  | [] => f []
  | c :: rest =>
    match f (c :: rest) with
    | some r => some r
    | none => scanO f rest

/-- Embeds re.search of an ASCII literal pattern, and the Python substring
test `p in l`. -/
def reSearchLit (p : Str) (l : Str) : Bool := scanP (chkLit p) l

/-- Check for a whole-word occurrence at the current position: the literal w
followed by a word boundary.  The boundary on the left is handled by scanWB. -/
def wwChk (w : Str) (t : Str) : Bool := chkLit w t && notWordAt t w.length

/-- Embeds re.search of a pattern of the form backslash-b w backslash-b. -/
def wwSearch (w : Str) (l : Str) : Bool := scanWB (wwChk w) false l

/-- Embeds re.search of a pattern of the form backslash-b w (prefix of a word). -/
def pwSearch (w : Str) (l : Str) : Bool := scanWB (chkLit w) false l

/-- Check embedding the regex backslash-d braces 3,4: an unanchored search
succeeds exactly when three consecutive digits start here. -/
def chk3d (t : Str) : Bool := digAt t 0 && digAt t 1 && digAt t 2

/-- Check embedding the regex "to backslash-d+": the literal "to " followed by
a digit. -/
def chkToNum (t : Str) : Bool := chkLit (ls "to ") t && digAt t 3

/-- Check embedding the regex "backslash-d+-backslash-d+": an unanchored
search succeeds exactly when digit, hyphen, digit occur consecutively. -/
def chkRng (t : Str) : Bool := digAt t 0 && decide (t[1]? = some '-') && digAt t 2

/-- Check embedding the legacy regex "backslash-d braces 1,2 th century":
a digit followed by the literal "th century". -/
def chkDigThC (t : Str) : Bool := digAt t 0 && chkLit (ls "th century") (t.drop 1)

/-- The geographic whole-word patterns of MARC65XBuilder._determine_tag
(src/marc_65x_builder.py lines 75-79), in source order. -/
def geoTagPatterns : List Str :=
  [ls "country", ls "city", ls "region", ls "china", ls "japan",
   ls "united states", ls "europe", ls "asia", ls "africa"]

/-- The genre/form word-prefix patterns of MARC65XBuilder._determine_tag
(src/marc_65x_builder.py lines 85-89), in source order. -/
def genreTagPatterns : List Str :=
  [ls "conference", ls "handbook", ls "manual", ls "essay", ls "paper",
   ls "proceeding", ls "textbook", ls "guide"]

/-- The chronological patterns of MARC65XBuilder._classify_subdivision
(src/marc_65x_builder.py lines 138-141), in source order, each embedded as a
start-position check to be scanned by scanP. -/
def chronoChks : List (Str → Bool) :=
  [chk3d, chkLit (ls "century"), chkLit (ls "period"), chkLit (ls "era"),
   chkLit (ls "dynasty"), chkLit (ls "age"), chkToNum, chkRng]

/-- The geographic keywords of MARC65XBuilder._classify_subdivision
(src/marc_65x_builder.py lines 147-151), tested with the Python `in`
substring operator. -/
def geoKeywords : List Str :=
  [ls "united states", ls "america", ls "china", ls "japan", ls "europe",
   ls "asia", ls "africa", ls "city", ls "state", ls "province", ls "region",
   ls "county", ls "kingdom", ls "republic"]

/-- The form keywords of MARC65XBuilder._classify_subdivision
(src/marc_65x_builder.py lines 157-165). -/
def formKeywords : List Str :=
  [ls "congresses", ls "conferences", ls "periodicals",
   ls "handbooks", ls "manuals", ls "guidebooks",
   ls "dictionaries", ls "encyclopedias", ls "directories",
   ls "bibliography", ls "catalogs", ls "indexes",
   ls "abstracts", ls "reviews", ls "case studies",
   ls "textbooks", ls "problems", ls "exercises",
   ls "examinations", ls "outlines", ls "study guides"]

/-- The chronological patterns of the legacy MARCBuilder._is_chronological
(src/marc_builder.py lines 74-84), in source order.  The patterns are matched
with re.IGNORECASE over the raw text, which for these ASCII patterns is the
same as matching over the ASCII-lowercased text. -/
def legacyChronoChks : List (Str → Bool) :=
  [chk3d, chkDigThC, chkLit (ls "century"), chkLit (ls "period"),
   chkLit (ls "era"), chkLit (ls "dynasty"), chkLit (ls "age"),
   chkToNum, chkRng]

/-- Embeds MARC65XBuilder._determine_tag (src/marc_65x_builder.py lines
48-95).  The Python parameter topic_type may be None, modelled by Option;
the authority argument is only read for its label, so the label is passed
directly. -/
def determine_tag (label : Str) (topic_type : Option Str) : Str :=
  if topic_type = some (ls "geographic") then ls "651"
  else if topic_type = some (ls "genre") then ls "655"
  else if topic_type = some (ls "topical") then ls "650"
  else
    let label_lower := asciiLower label
    if geoTagPatterns.any (fun w => wwSearch w label_lower) then ls "651"
    else if genreTagPatterns.any (fun w => pwSearch w label_lower) then ls "655"
    else ls "650"

/-- Embeds MARC65XBuilder._classify_subdivision (src/marc_65x_builder.py
lines 125-171). -/
def classify_subdivision (text : Str) : Str :=
  let text_lower := asciiLower text
  if chronoChks.any (fun chk => scanP chk text_lower) then ls "y"
  else if geoKeywords.any (fun k => reSearchLit k text_lower) then ls "z"
  else if formKeywords.any (fun k => reSearchLit k text_lower) then ls "v"
  else ls "x"

/-- Embeds the legacy MARCBuilder._is_chronological (src/marc_builder.py
lines 72-89). -/
def is_chronological (text : Str) : Bool :=
  legacyChronoChks.any (fun chk => scanP chk (asciiLower text))

/-- Embeds Python label.split("--"): leftmost, non-overlapping split on the
two-character delimiter.  Always returns a non-empty list; empty segments
are kept, exactly as str.split with an explicit separator keeps them. -/
def splitDD : Str → List Str
  | [] => [[]]
  | [c] => [[c]]
  | c :: d :: rest =>
    if c = '-' ∧ d = '-' then [] :: splitDD rest
    else
      match splitDD (d :: rest) with
      | s :: ss => (c :: s) :: ss
      | [] => [[c]]

/-- Embeds Python uri.split("/"). -/
def splitSlash : Str → List Str
  | [] => [[]]
  | c :: rest =>
    if c = '/' then [] :: splitSlash rest
    else
      match splitSlash rest with
      | s :: ss => (c :: s) :: ss
      | [] => [[c]]

/-- Embeds Python uri.rstrip("/"): remove every trailing slash. -/
def rstripSlash (l : Str) : Str :=
  (l.reverse.dropWhile (fun c => c == '/')).reverse

/-- MARC subfield record.  Modelled from the spec: the Subfield data carrier
of models.py (imported by the builders but not present under src/) — a code
and a value, both strings (section 3 of the spec). -/
structure Subfield where
  code : Str
  value : Str
deriving DecidableEq, Repr

/-- Workflow status of a subject record.  Modelled from the spec: the
SubjectStatus enum of models.py (not present under src/), values suggested,
accepted, rejected (section 3 of the spec). -/
inductive SubjectStatus where
  | suggested
  | accepted
  | rejected
deriving DecidableEq, Repr

/-- Authority candidate input.  Modelled from the spec: the
AuthorityCandidate data carrier of models.py (not present under src/); the
builder reads only label, uri and vocabulary.  The float score field is
passed through unchanged by the code and is not modelled (floating point is
out of scope for the claims). -/
structure AuthorityCandidate where
  label : Str
  uri : Str
  vocabulary : Str
deriving DecidableEq, Repr

/-- MARC 65X output record.  Modelled from the spec: the Subject65X data
carrier of models.py (not present under src/), with the fields the builder
populates (section 3 of the spec).  The float score field is not modelled. -/
structure Subject65X where
  tag : Str
  ind1 : Str
  ind2 : Str
  vocabulary : Str
  heading_string : Str
  subfields : List Subfield
  uri : Str
  authority_id : Option Str
  source_system : Str
  status : SubjectStatus
  explanation : Str
deriving DecidableEq, Repr

/-- Embeds MARC65XBuilder._parse_subdivisions (src/marc_65x_builder.py lines
97-123).  Note label.split never returns an empty list, so the Python
`if not parts` guard is dead; it is kept here as the match arm for []. -/
def parse_subdivisions (label : Str) : List Subfield :=
  let parts := (splitDD label).map pyStrip
  match parts with
  | [] => [⟨ls "a", label⟩]
  | p0 :: rest =>
    ⟨ls "a", p0⟩ :: rest.map (fun part => ⟨classify_subdivision part, part⟩)

/-- Match check for the regex fst backslash-d+ with re.IGNORECASE at the
current position: the three letters f s t in any case followed by at least
one digit; the match is the letters as written plus the maximal digit run.
Embeds the regex used by MARC65XBuilder._extract_authority_id. -/
def fstMatchAt : Str → Option Str
  | f :: s :: u :: rest =>
    if decide (lowerChar f = 'f') && decide (lowerChar s = 's') &&
       decide (lowerChar u = 't') &&
       (match rest with | d :: _ => d.isDigit | [] => false)
    then some (f :: s :: u :: rest.takeWhile Char.isDigit)
    else none
  | _ => none

/-- Embeds re.search of fst backslash-d+ with re.IGNORECASE: leftmost match. -/
def fstSearch (uri : Str) : Option Str := scanO fstMatchAt uri

/-- Embeds MARC65XBuilder._extract_authority_id (src/marc_65x_builder.py
lines 173-189).  Python `if not uri` is the emptiness test; parts[-1] if
parts else None is exactly List.getLast?. -/
def extract_authority_id (uri : Str) : Option Str :=
  if uri = [] then none
  else if reSearchLit (ls "id.loc.gov") uri then
    (splitSlash (rstripSlash uri)).getLast?
  else if reSearchLit (ls "fst") (asciiLower uri) then
    fstSearch uri
  else none

/-- Embeds the VOCAB_TO_MARC dictionary lookup with the fallback default of
MARC65XBuilder.build_subject_65x (src/marc_65x_builder.py lines 29-32 and
252-257): ind2 paired with the optional subfield-2 value. -/
def vocabConfig (vocab : Str) : Str × Option Str :=
  if vocab = ls "lcsh" then (ls "0", none)
  else if vocab = ls "fast" then (ls "7", some (ls "fast"))
  else (ls "7", some vocab)

/-- Python truthiness of the optional subfield-2 value: None and the empty
string are falsy. -/
def optTruthy : Option Str → Bool
  | none => false
  | some s => !s.isEmpty

/-- Embeds MARC65XBuilder.build_subject_65x (src/marc_65x_builder.py lines
230-309) up to the construction of the Subject65X record (line 300), which
carries explanation = "".  The subsequent explanation enrichment (lines
302-307) is an external LLM call or float formatting applied after
construction; the spec scopes it out of the pure core and it is not
modelled. -/
def build_subject_65x (authority : AuthorityCandidate) (topic_type : Option Str) :
    Subject65X :=
  let tag := determine_tag authority.label topic_type
  let vocab := asciiLower authority.vocabulary
  let cfg := vocabConfig vocab
  let subfields0 := parse_subdivisions authority.label
  let subfields1 :=
    if authority.uri = [] then subfields0
    else subfields0 ++ [⟨ls "0", authority.uri⟩]
  let subfields2 :=
    if optTruthy cfg.2 then subfields1 ++ [⟨ls "2", cfg.2.getD []⟩]
    else subfields1
  { tag := tag
    ind1 := ls "_"
    ind2 := cfg.1
    vocabulary := vocab
    heading_string := authority.label
    subfields := subfields2
    uri := authority.uri
    authority_id := extract_authority_id authority.uri
    source_system := ls "ai_generated"
    status := SubjectStatus.suggested
    explanation := [] }

/-! Positional renderings of the pattern conditions.  These are the
specification-side formulations: a pattern holds of a text when some start
position of the text carries it, expressed with positional lookups rather
than with the scanning recursions that embed the code. -/

/-- Spec-side: p occurs as a substring of l at some position. -/
def posContains (p : Str) (l : Str) : Bool :=
  (List.range (l.length + 1)).any (fun i => decide ((l.drop i).take p.length = p))

/-- Spec-side: w occurs in l at some position with a word boundary on both
sides (preceding and following characters, when they exist, are non-word). -/
def posWholeWord (w : Str) (l : Str) : Bool :=
  (List.range (l.length + 1)).any (fun i =>
    (decide ((l.drop i).take w.length = w) && notWordAt l (i + w.length)) &&
    (if i = 0 then true else notWordAt l (i - 1)))

/-- Spec-side: w occurs in l at some position preceded by a word boundary;
the occurrence may continue into a longer word (prefix-within-word match). -/
def posPrefixWord (w : Str) (l : Str) : Bool :=
  (List.range (l.length + 1)).any (fun i =>
    decide ((l.drop i).take w.length = w) &&
    (if i = 0 then true else notWordAt l (i - 1)))

/-- Spec-side: three consecutive digits occur at some position of l. -/
def pos3Digits (l : Str) : Bool :=
  (List.range (l.length + 1)).any (fun i =>
    digAt l i && digAt l (i + 1) && digAt l (i + 2))

/-- Spec-side: the literal "to " followed by a digit occurs at some position. -/
def posToNum (l : Str) : Bool :=
  (List.range (l.length + 1)).any (fun i =>
    decide ((l.drop i).take 3 = ls "to ") && digAt l (i + 3))

/-- Spec-side: digit, hyphen, digit occur consecutively at some position. -/
def posNumRange (l : Str) : Bool :=
  (List.range (l.length + 1)).any (fun i =>
    digAt l i && decide (l[i + 1]? = some '-') && digAt l (i + 2))

/-- Spec-side chronological condition, substring reading: the lowercased
text contains three consecutive digits, one of the substrings century,
period, era, dynasty, age, the phrase "to " followed by a digit, or a
digit-hyphen-digit range. -/
def specChronoB (t : Str) : Bool :=
  let tl := asciiLower t
  pos3Digits tl || posContains (ls "century") tl || posContains (ls "period") tl ||
  posContains (ls "era") tl || posContains (ls "dynasty") tl ||
  posContains (ls "age") tl || posToNum tl || posNumRange tl

/-- The chronological condition exactly as claim C3 words it, whole-word
reading: the five time words count only as whole words of the text.  This is
the reading under which the claim fails on the code. -/
def chronoWordSpecB (t : Str) : Bool :=
  let tl := asciiLower t
  pos3Digits tl || posWholeWord (ls "century") tl || posWholeWord (ls "period") tl ||
  posWholeWord (ls "era") tl || posWholeWord (ls "dynasty") tl ||
  posWholeWord (ls "age") tl || posToNum tl || posNumRange tl

/-- Spec-side description of the conditionally appended source subfield: per
the vocabulary table, lcsh contributes no subfield 2, fast contributes
subfield 2 with value fast, and any other lowercased code contributes
subfield 2 carrying that code — except the empty code, which the code's
truthiness test skips. -/
def s2spec (v : Str) : List Subfield :=
  if v = ls "lcsh" then []
  else if v = ls "fast" then [⟨ls "2", ls "fast"⟩]
  else if v = [] then []
  else [⟨ls "2", v⟩]

/-- True when position j of l holds a character whose ASCII lowering is c. -/
def chLowerAt (l : Str) (j : Nat) (c : Char) : Bool :=
  match l[j]? with
  | some d => decide (lowerChar d = c)
  | none => false

/-- Spec-side: the fst-identifier match anchored at position i of the URI —
the three letters f s t in any case followed by at least one digit; the
result is those three characters as written plus the maximal digit run. -/
def fstPosMatch (uri : Str) (i : Nat) : Option Str :=
  if chLowerAt uri i 'f' && chLowerAt uri (i + 1) 's' && chLowerAt uri (i + 2) 't' &&
     digAt uri (i + 3)
  then some ((uri.drop i).take 3 ++ (uri.drop (i + 3)).takeWhile Char.isDigit)
  else none

/-- Spec-side: the leftmost fst-identifier match in the URI, if any. -/
def posFstSearch (uri : Str) : Option Str :=
  (List.range (uri.length + 1)).findSome? (fstPosMatch uri)

theorem anyEqAny {α : Type} (l : List α) (f g : α → Bool)
    (h : ∀ x ∈ l, f x = g x) : l.any f = l.any g := by
  induction l with
  | nil => rfl
  | cons a l ih =>
    simp only [List.any_cons, h a (by simp)]
    rw [ih (fun x hx => h x (by simp [hx]))]

theorem notWordAt_drop (l : Str) (i j : Nat) :
    notWordAt (l.drop i) j = notWordAt l (i + j) := by
  unfold notWordAt
  rw [List.getElem?_drop]

theorem digAt_drop (l : Str) (i j : Nat) :
    digAt (l.drop i) j = digAt l (i + j) := by
  unfold digAt
  rw [List.getElem?_drop]

theorem notWordAt_cons (c : Char) (rest : Str) (i : Nat) :
    notWordAt (c :: rest) i = if i = 0 then !wordChar c else notWordAt rest (i - 1) := by
  cases i with
  | zero => simp [notWordAt]
  | succ j => simp [notWordAt, List.getElem?_cons_succ]

/-- The scanning search is equivalent to the positional formulation: it
succeeds exactly when the check holds at some start position. -/
theorem scanP_eq (chk : Str → Bool) (l : Str) :
    scanP chk l = (List.range (l.length + 1)).any (fun i => chk (l.drop i)) := by
  induction l with
  | nil =>
    show chk [] = (List.range 1).any fun i => chk ([].drop i)
    rw [show List.range 1 = [0] from rfl]
    simp
  | cons c rest ih =>
    conv_rhs => rw [List.length_cons, List.range_succ_eq_map]
    rw [List.any_cons, List.any_map]
    simp only [scanP, List.drop_zero]
    have h2 : scanP chk rest =
        (List.range (rest.length + 1)).any ((fun i => chk ((c :: rest).drop i)) ∘ Nat.succ) := by
      rw [ih]
      exact anyEqAny _ _ _ (fun i _ => by simp [Function.comp, List.drop_succ_cons])
    rw [h2]

/-- The boundary-threading scan is equivalent to the positional formulation:
it succeeds exactly when the check holds at some position whose preceding
character (or, at position zero, the threaded flag) is a word boundary. -/
theorem scanWB_eq (chk : Str → Bool) (b : Bool) (l : Str) :
    scanWB chk b l = (List.range (l.length + 1)).any (fun i =>
      chk (l.drop i) && (if i = 0 then !b else notWordAt l (i - 1))) := by
  induction l generalizing b with
  | nil =>
    show (!b && chk []) = (List.range 1).any fun i =>
      chk ([].drop i) && (if i = 0 then !b else notWordAt [] (i - 1))
    rw [show List.range 1 = [0] from rfl]
    simp [Bool.and_comm]
  | cons c rest ih =>
    conv_rhs => rw [List.length_cons, List.range_succ_eq_map]
    rw [List.any_cons, List.any_map]
    simp only [scanWB, List.drop_zero]
    have h2 : scanWB chk (wordChar c) rest =
        (List.range (rest.length + 1)).any ((fun i => chk ((c :: rest).drop i) &&
          (if i = 0 then !b else notWordAt (c :: rest) (i - 1))) ∘ Nat.succ) := by
      rw [ih (wordChar c)]
      refine anyEqAny _ _ _ (fun i _ => ?_)
      simp only [Function.comp, List.drop_succ_cons, Nat.succ_ne_zero, if_false,
        Nat.succ_sub_one]
      rw [notWordAt_cons]
    rw [h2]
    congr 1
    simp [Bool.and_comm]

theorem reSearchLit_eq_pos (p l : Str) : reSearchLit p l = posContains p l := by
  rw [reSearchLit, scanP_eq, posContains]
  rfl

theorem wwSearch_eq_pos (w l : Str) : wwSearch w l = posWholeWord w l := by
  rw [wwSearch, scanWB_eq, posWholeWord]
  refine anyEqAny _ _ _ (fun i _ => ?_)
  rw [Bool.not_false]
  unfold wwChk chkLit
  rw [notWordAt_drop]

theorem pwSearch_eq_pos (w l : Str) : pwSearch w l = posPrefixWord w l := by
  rw [pwSearch, scanWB_eq, posPrefixWord]
  refine anyEqAny _ _ _ (fun i _ => ?_)
  rw [Bool.not_false]
  rfl

theorem chk3d_scan_eq_pos (l : Str) : scanP chk3d l = pos3Digits l := by
  rw [scanP_eq, pos3Digits]
  refine anyEqAny _ _ _ (fun i _ => ?_)
  unfold chk3d
  rw [digAt_drop, digAt_drop, digAt_drop, Nat.add_zero]

theorem chkToNum_scan_eq_pos (l : Str) : scanP chkToNum l = posToNum l := by
  rw [scanP_eq, posToNum]
  refine anyEqAny _ _ _ (fun i _ => ?_)
  unfold chkToNum chkLit
  rw [digAt_drop]
  rfl

theorem chkRng_scan_eq_pos (l : Str) : scanP chkRng l = posNumRange l := by
  rw [scanP_eq, posNumRange]
  refine anyEqAny _ _ _ (fun i _ => ?_)
  unfold chkRng
  rw [digAt_drop, digAt_drop, Nat.add_zero, List.getElem?_drop]

theorem chkLit_scan_eq_pos (p l : Str) : scanP (chkLit p) l = posContains p l :=
  reSearchLit_eq_pos p l

/-- Eliminating a successful scan: the check holds at some start position. -/
theorem scanP_elim (chk : Str → Bool) (l : Str) (h : scanP chk l = true) :
    ∃ k, chk (l.drop k) = true := by
  induction l with
  | nil => exact ⟨0, h⟩
  | cons c rest ih =>
    rw [scanP, Bool.or_eq_true] at h
    rcases h with h | h
    · exact ⟨0, h⟩
    · obtain ⟨k, hk⟩ := ih h
      exact ⟨k + 1, by rwa [List.drop_succ_cons]⟩

/-- Introducing a successful scan from a position where the check holds. -/
theorem scanP_intro (chk : Str → Bool) (k : Nat) (l : Str)
    (h : chk (l.drop k) = true) : scanP chk l = true := by
  induction l generalizing k with
  | nil =>
    rw [List.drop_nil] at h
    exact h
  | cons c rest ih =>
    rw [scanP, Bool.or_eq_true]
    cases k with
    | zero => exact Or.inl h
    | succ j =>
      rw [List.drop_succ_cons] at h
      exact Or.inr (ih j h)

/-- The legacy extra pattern digit-th-century is subsumed by the bare
pattern century: wherever the former matches, the latter matches four
positions later. -/
theorem dtc_implies_century (l : Str) (h : scanP chkDigThC l = true) :
    scanP (chkLit (ls "century")) l = true := by
  obtain ⟨k, hk⟩ := scanP_elim _ _ h
  unfold chkDigThC at hk
  rw [Bool.and_eq_true] at hk
  have hs : ((l.drop k).drop 1).take 10 = ls "th century" :=
    of_decide_eq_true hk.2
  rw [List.drop_drop] at hs
  have hsplit : l.drop (k + 1) = ls "th century" ++ (l.drop (k + 1)).drop 10 := by
    conv_lhs => rw [← List.take_append_drop 10 (l.drop (k + 1))]
    rw [hs]
  have hthc : ls "th century" = 't' :: 'h' :: ' ' :: ls "century" := by decide
  apply scanP_intro _ (k + 4)
  have hdrop : l.drop (k + 4) = ls "century" ++ (l.drop (k + 1)).drop 10 := by
    have h14 : l.drop (k + 4) = (l.drop (k + 1)).drop 3 := by
      rw [List.drop_drop]
    rw [h14]
    conv_lhs => rw [hsplit]
    rw [hthc]
    rfl
  rw [hdrop]
  unfold chkLit
  apply decide_eq_true
  exact List.take_left ..

/-- classify_subdivision answers y exactly when one of its chronological
patterns fires on the lowercased text. -/
theorem classify_eq_y_iff (t : Str) :
    classify_subdivision t = ls "y" ↔
      chronoChks.any (fun chk => scanP chk (asciiLower t)) = true := by
  unfold classify_subdivision
  dsimp only
  split_ifs with h1 h2 h3 <;> simp [h1] <;> decide

/-- The code-side chronological disjunction coincides with the spec-side
positional rendering. -/
theorem chrono_eq_spec (t : Str) :
    chronoChks.any (fun chk => scanP chk (asciiLower t)) = specChronoB t := by
  unfold chronoChks specChronoB
  dsimp only
  simp only [List.any_cons, List.any_nil, Bool.or_false]
  rw [chk3d_scan_eq_pos, chkToNum_scan_eq_pos, chkRng_scan_eq_pos,
    chkLit_scan_eq_pos, chkLit_scan_eq_pos, chkLit_scan_eq_pos,
    chkLit_scan_eq_pos, chkLit_scan_eq_pos]
  simp [Bool.or_assoc]

/-- The legacy chronological pattern list and the canonical one are
extensionally equivalent on every text. -/
theorem legacy_any_eq (l : Str) :
    legacyChronoChks.any (fun chk => scanP chk l) =
      chronoChks.any (fun chk => scanP chk l) := by
  unfold legacyChronoChks chronoChks
  simp only [List.any_cons, List.any_nil, Bool.or_false]
  cases hD : scanP chkDigThC l with
  | false => simp [hD]
  | true => simp [hD, dtc_implies_century l hD]

/-- C2: determine_tag always returns one of 650, 651, 655 and implements
exactly the three-tier priority: a present, non-null topic-type hint wins
(geographic gives 651, genre gives 655, topical gives 650, regardless of the
label); otherwise a whole-word match of one of the nine geographic patterns
in the lower-cased label gives 651, else a within-word prefix match of one of
the eight genre patterns gives 655; otherwise the default 650.  There is no
error case: the function is total. -/
theorem c2_determine_tag :
    (∀ label h, determine_tag label h = ls "650" ∨ determine_tag label h = ls "651" ∨
      determine_tag label h = ls "655") ∧
    (∀ label, determine_tag label (some (ls "geographic")) = ls "651") ∧
    (∀ label, determine_tag label (some (ls "genre")) = ls "655") ∧
    (∀ label, determine_tag label (some (ls "topical")) = ls "650") ∧
    (∀ label, determine_tag label none =
      if geoTagPatterns.any (fun w => posWholeWord w (asciiLower label)) then ls "651"
      else if genreTagPatterns.any (fun w => posPrefixWord w (asciiLower label)) then ls "655"
      else ls "650") ∧
    determine_tag (ls "China -- Civilization") none = ls "651" := by
  refine ⟨?_, ?_, ?_, ?_, ?_, by decide⟩
  · intro label h
    unfold determine_tag
    dsimp only
    split_ifs <;> decide
  · intro label
    rfl
  · intro label
    rfl
  · intro label
    rfl
  · intro label
    simp [determine_tag, wwSearch_eq_pos, pwSearch_eq_pos]

/-- The double-hyphen check at the head of a two-or-more character text
reduces to an equality test on the first two characters. -/
theorem chkLit_dd_cons (c d : Char) (rest : Str)
    (h : chkLit (ls "--") (c :: d :: rest) = false) : ¬(c = '-' ∧ d = '-') := by
  rintro ⟨hc, hd⟩
  subst hc
  subst hd
  have := of_decide_eq_false h
  exact this rfl

theorem splitDD_dd (rest : Str) : splitDD ('-' :: '-' :: rest) = [] :: splitDD rest := by
  simp [splitDD]

theorem splitDD_cons_cons (c d : Char) (rest : Str) (h : ¬(c = '-' ∧ d = '-')) :
    splitDD (c :: d :: rest) =
      match splitDD (d :: rest) with
      | s :: ss => (c :: s) :: ss
      | [] => [[c]] := by
  simp only [splitDD]
  rw [if_neg h]

/-- A string with no occurrence of the double hyphen splits into itself. -/
theorem noDD_splitDD (l : Str) (h : reSearchLit (ls "--") l = false) :
    splitDD l = [l] := by
  induction l with
  | nil => rfl
  | cons c rest ih =>
    cases rest with
    | nil => rfl
    | cons d rest2 =>
      rw [reSearchLit, scanP, Bool.or_eq_false_iff] at h
      obtain ⟨h1, h2⟩ := h
      rw [splitDD_cons_cons c d rest2 (chkLit_dd_cons c d rest2 h1), ih h2]

theorem splitDD_ne_nil (l : Str) : splitDD l ≠ [] := by
  induction l with
  | nil => simp [splitDD]
  | cons c rest ih =>
    cases rest with
    | nil => simp [splitDD]
    | cons d rest2 =>
      by_cases hdd : c = '-' ∧ d = '-'
      · obtain ⟨hc, hd⟩ := hdd
        subst hc
        subst hd
        rw [splitDD_dd]
        simp
      · rw [splitDD_cons_cons c d rest2 hdd]
        rcases hsp : splitDD (d :: rest2) with _ | ⟨s, ss⟩ <;> simp [hsp]

/-- Splitting a string of the form a ++ "--" ++ rest, when a holds no double
hyphen and does not end in a hyphen, peels off a as the first segment. -/
theorem splitDD_append (a rest : Str) (hnd : reSearchLit (ls "--") a = false)
    (hlast : a.getLast? ≠ some '-') :
    splitDD (a ++ '-' :: '-' :: rest) = a :: splitDD rest := by
  induction a with
  | nil =>
    rw [List.nil_append, splitDD_dd]
  | cons c a2 ih =>
    cases a2 with
    | nil =>
      have hc : c ≠ '-' := by
        intro h
        exact hlast (by rw [h]; rfl)
      rw [List.cons_append, List.nil_append]
      rw [splitDD_cons_cons c '-' ('-' :: rest) (fun hh => hc hh.1)]
      rw [splitDD_dd]
    | cons d a3 =>
      rw [reSearchLit, scanP, Bool.or_eq_false_iff] at hnd
      obtain ⟨h1, h2⟩ := hnd
      have hlast2 : (d :: a3).getLast? ≠ some '-' := by
        rwa [List.getLast?_cons_cons] at hlast
      have hih := ih h2 hlast2
      rw [List.cons_append] at hih ⊢
      rw [List.cons_append]
      rw [splitDD_cons_cons c d (a3 ++ '-' :: '-' :: rest) (chkLit_dd_cons c d a3 h1)]
      rw [hih]

/-- C3 counterexample: the code classifies Literature as chronological,
because the pattern era is matched as a bare substring (lit-ERA-ture), while
the claim's condition — the word era, and the other listed alternatives —
does not hold of Literature.  The claim's "exactly when" is therefore false
as stated. -/
theorem c3_cex_literature :
    classify_subdivision (ls "Literature") = ls "y" ∧
      chronoWordSpecB (ls "Literature") = false := by
  constructor
  · decide
  · decide

/-- C3 amended: classify_subdivision returns y exactly when the lowercased
text contains three consecutive digits, one of the SUBSTRINGS century,
period, era, dynasty, age (substring containment, not whole-word matching),
the phrase "to " followed by a digit, or a digit-hyphen-digit range;
chronological matching is checked before every other category, and in
particular Ming dynasty, 1368-1644 classifies as y. -/
theorem c3_chronological :
    (∀ t, classify_subdivision t = ls "y" ↔ specChronoB t = true) ∧
      classify_subdivision (ls "Ming dynasty, 1368-1644") = ls "y" := by
  refine ⟨fun t => ?_, by decide⟩
  rw [classify_eq_y_iff, chrono_eq_spec]

/-- C4: for every subdivision text that is not chronological,
classify_subdivision returns z when the lowercased text contains one of the
fourteen gazetteer keywords as a substring, otherwise v when it contains one
of the twenty-one form keywords, otherwise the default x — first match wins
in the order z, v, x; with the three examples of the claim. -/
theorem c4_gaz_form :
    (∀ t, specChronoB t = false →
      classify_subdivision t =
        (if geoKeywords.any (fun k => posContains k (asciiLower t)) then ls "z"
         else if formKeywords.any (fun k => posContains k (asciiLower t)) then ls "v"
         else ls "x")) ∧
    classify_subdivision (ls "China") = ls "z" ∧
    classify_subdivision (ls "Handbooks") = ls "v" ∧
    classify_subdivision (ls "Social aspects") = ls "x" := by
  refine ⟨fun t h => ?_, by decide, by decide, by decide⟩
  have hc : chronoChks.any (fun chk => scanP chk (asciiLower t)) = false := by
    rw [chrono_eq_spec]
    exact h
  unfold classify_subdivision
  dsimp only
  simp only [hc, Bool.false_eq_true, if_false, reSearchLit_eq_pos]

/-- Witness for C4 at the concrete subdivision Social aspects, which is not
chronological and falls through to the default x. -/
theorem c4_gaz_form_witness :
    specChronoB (ls "Social aspects") = false ∧
      classify_subdivision (ls "Social aspects") = ls "x" :=
  ⟨by decide, by
    rw [c4_gaz_form.1 (ls "Social aspects") (by decide)]
    decide⟩

/-- C9: the legacy chronological test of marc_builder.py agrees with the
canonical classifier of marc_65x_builder.py on every subdivision string: the
legacy module's extra digit-th-century pattern is subsumed by its bare
century pattern, and its IGNORECASE matching coincides with matching over
the lowercased text. -/
theorem c9_legacy_equiv (t : Str) :
    is_chronological t = true ↔ classify_subdivision t = ls "y" := by
  rw [classify_eq_y_iff]
  unfold is_chronological
  rw [legacy_any_eq]

/-- C10: determine_tag is total over arbitrary hints: a hint that is any
string outside topical, geographic, genre is treated exactly like an absent
hint and the function falls through to the label heuristic. -/
theorem c10_unknown_hint (label s : Str) (h1 : s ≠ ls "topical")
    (h2 : s ≠ ls "geographic") (h3 : s ≠ ls "genre") :
    determine_tag label (some s) = determine_tag label none := by
  simp [determine_tag, Option.some.injEq, h1, h2, h3]

/-- Witness for C10 at the concrete hint genre_form, which the upstream topic
generator can emit. -/
theorem c10_unknown_hint_witness :
    determine_tag (ls "China") (some (ls "genre_form")) = determine_tag (ls "China") none :=
  c10_unknown_hint (ls "China") (ls "genre_form") (by decide) (by decide) (by decide)

/-- Every subdivision classifies into one of the four subdivision codes. -/
theorem classify_mem (t : Str) :
    classify_subdivision t = ls "y" ∨ classify_subdivision t = ls "z" ∨
    classify_subdivision t = ls "v" ∨ classify_subdivision t = ls "x" := by
  unfold classify_subdivision
  dsimp only
  split_ifs <;> simp

/-- The parsed subfield list always begins with a subfield of code a. -/
theorem parse_head (label : Str) :
    ∃ v rest, parse_subdivisions label = ⟨ls "a", v⟩ :: rest := by
  unfold parse_subdivisions
  dsimp only
  rcases hsp : (splitDD label).map pyStrip with _ | ⟨p0, rest⟩
  · exact ⟨label, [], rfl⟩
  · exact ⟨p0, _, rfl⟩

/-- Every subfield produced by heading parsing carries one of the five
heading codes. -/
theorem parse_codes (label : Str) (f : Subfield) (hf : f ∈ parse_subdivisions label) :
    f.code = ls "a" ∨ f.code = ls "y" ∨ f.code = ls "z" ∨
    f.code = ls "v" ∨ f.code = ls "x" := by
  unfold parse_subdivisions at hf
  dsimp only at hf
  rcases hsp : (splitDD label).map pyStrip with _ | ⟨p0, rest⟩ <;> rw [hsp] at hf
  · rw [List.mem_singleton] at hf
    subst hf
    exact Or.inl rfl
  · rcases List.mem_cons.mp hf with h | h
    · subst h
      exact Or.inl rfl
    · obtain ⟨p, _, hp⟩ := List.mem_map.mp h
      subst hp
      rcases classify_mem p with h | h | h | h <;> simp [h]

/-- Heading parsing never emits an authority-link subfield (code 0). -/
theorem parse_filter_zero (label : Str) :
    (parse_subdivisions label).filter (fun f => f.code == ls "0") = [] := by
  refine List.filter_eq_nil_iff.mpr (fun f hf => ?_)
  rcases parse_codes label f hf with h | h | h | h | h <;> rw [h] <;> decide

/-- Heading parsing never emits a source subfield (code 2). -/
theorem parse_filter_two (label : Str) :
    (parse_subdivisions label).filter (fun f => f.code == ls "2") = [] := by
  refine List.filter_eq_nil_iff.mpr (fun f hf => ?_)
  rcases parse_codes label f hf with h | h | h | h | h <;> rw [h] <;> decide

/-- The assembled subfield list of a built subject is the parsed heading,
then the optional authority-link subfield, then the optional source
subfield, in that order. -/
theorem build_subfields_eq (a : AuthorityCandidate) (tt : Option Str) :
    (build_subject_65x a tt).subfields =
      parse_subdivisions a.label ++
      (if a.uri = [] then [] else [⟨ls "0", a.uri⟩]) ++
      s2spec (asciiLower a.vocabulary) := by
  by_cases h1 : asciiLower a.vocabulary = ls "lcsh"
  · unfold build_subject_65x
    dsimp only
    rw [h1, show vocabConfig (ls "lcsh") = (ls "0", none) from rfl,
      show s2spec (ls "lcsh") = [] from rfl]
    by_cases huri : a.uri = [] <;> simp [huri, optTruthy]
  · by_cases h2 : asciiLower a.vocabulary = ls "fast"
    · unfold build_subject_65x
      dsimp only
      rw [h2, show vocabConfig (ls "fast") = (ls "7", some (ls "fast")) from rfl,
        show s2spec (ls "fast") = [⟨ls "2", ls "fast"⟩] from rfl]
      by_cases huri : a.uri = [] <;> simp [huri, optTruthy] <;> decide
    · have hvc : vocabConfig (asciiLower a.vocabulary) =
          (ls "7", some (asciiLower a.vocabulary)) := by
        unfold vocabConfig
        rw [if_neg h1, if_neg h2]
      by_cases h3 : asciiLower a.vocabulary = []
      · unfold build_subject_65x
        dsimp only
        rw [hvc, h3, show s2spec [] = [] from rfl]
        by_cases huri : a.uri = [] <;> simp [huri, optTruthy]
      · have hs2 : s2spec (asciiLower a.vocabulary) =
            [⟨ls "2", asciiLower a.vocabulary⟩] := by
          unfold s2spec
          rw [if_neg h1, if_neg h2, if_neg h3]
        have hv : (asciiLower a.vocabulary).isEmpty = false := by
          cases hvv : asciiLower a.vocabulary with
          | nil => exact absurd hvv h3
          | cons x xs => rfl
        unfold build_subject_65x
        dsimp only
        rw [hvc, hs2]
        by_cases huri : a.uri = [] <;> simp [huri, optTruthy, hv]

/-- C5 counterexample: the code does not drop empty segments — for the label
A----B the split segments after trimming are A, empty, B, the spec-side
dropping of empties would leave A, B, yet the parsed subfields keep the
empty segment as a classified subdivision; and for a label with surrounding
whitespace and no double hyphen the single subfield carries the trimmed
label, not the full label. -/
theorem c5_cex_empty_segment :
    (parse_subdivisions (ls "A----B")).map Subfield.value = [ls "A", [], ls "B"] ∧
    ((splitDD (ls "A----B")).map pyStrip).filter (fun s => !s.isEmpty) =
      [ls "A", ls "B"] ∧
    parse_subdivisions (ls " X ") = [⟨ls "a", ls "X"⟩] ∧
    ¬(ls " X " = ls "X") := by
  refine ⟨by decide, by decide, by decide, by decide⟩

/-- C5 amended: split_heading splits the label on the literal two-character
delimiter and trims whitespace from every resulting segment; empty segments
are KEPT, the first segment (possibly empty) becomes the a subfield and
every subsequent segment, empty or not, becomes a classified subdivision;
consequently, for every heading containing no double hyphen, the
heading-derived subfield sequence has exactly one element, code a, value
equal to the TRIMMED label. -/
theorem c5_split_heading :
    (∀ label, posContains (ls "--") label = false →
      parse_subdivisions label = [⟨ls "a", pyStrip label⟩]) ∧
    parse_subdivisions (ls "A----B") =
      [⟨ls "a", ls "A"⟩, ⟨ls "x", []⟩, ⟨ls "x", ls "B"⟩] := by
  refine ⟨fun label h => ?_, by decide⟩
  have hdd : reSearchLit (ls "--") label = false := by
    rw [reSearchLit_eq_pos]
    exact h
  unfold parse_subdivisions
  dsimp only
  rw [noDD_splitDD label hdd]
  rfl

/-- Witness for C5 at a concrete heading with no double hyphen. -/
theorem c5_split_heading_witness :
    posContains (ls "--") (ls "Philosophy") = false ∧
      parse_subdivisions (ls "Philosophy") = [⟨ls "a", ls "Philosophy"⟩] :=
  ⟨by decide, by
    rw [c5_split_heading.1 (ls "Philosophy") (by decide)]
    decide⟩

theorem filter_code_single_ne (c v target : Str) (h : (c == target) = false) :
    ([⟨c, v⟩] : List Subfield).filter (fun f => f.code == target) = [] := by
  simp [List.filter_cons, h]

theorem filter_code_single_eq (c v target : Str) (h : (c == target) = true) :
    ([⟨c, v⟩] : List Subfield).filter (fun f => f.code == target) = [⟨c, v⟩] := by
  simp [List.filter_cons, h]

theorem s2spec_filter_zero (v : Str) :
    (s2spec v).filter (fun f => f.code == ls "0") = [] := by
  unfold s2spec
  split_ifs <;> rfl

theorem s2spec_filter_two_len (v : Str) :
    ((s2spec v).filter (fun f => f.code == ls "2")).length ≤ 1 := by
  unfold s2spec
  split_ifs <;> simp

theorem uriOpt_filter_zero_len (u : Str) :
    (((if u = [] then ([] : List Subfield) else [⟨ls "0", u⟩])).filter
      (fun f => f.code == ls "0")).length ≤ 1 := by
  split_ifs
  · simp
  · rw [filter_code_single_eq _ _ _ (by decide)]
    simp

theorem uriOpt_filter_two (u : Str) :
    ((if u = [] then ([] : List Subfield) else [⟨ls "0", u⟩])).filter
      (fun f => f.code == ls "2") = [] := by
  split_ifs
  · rfl
  · exact filter_code_single_ne _ _ _ (by decide)

/-- C6: build_subject assembles the subfield sequence in exactly the order
main heading, classified subdivisions in original label order, then the
authority-link subfield 0 iff the URI is non-empty, then the source subfield
2 per the vocabulary config; the first subfield always has code a, there is
at most one subfield 0 and at most one subfield 2, the status is suggested
and the explanation of the constructed record is empty, left for the
separate optional enrichment step; and for a heading A--B--C the
heading-derived subfields are the a subfield for A followed by the
classified B and C in that order. -/
theorem c6_assembly :
    (∀ a tt, (build_subject_65x a tt).subfields =
      parse_subdivisions a.label ++
      (if a.uri = [] then [] else [⟨ls "0", a.uri⟩]) ++
      s2spec (asciiLower a.vocabulary)) ∧
    (∀ a tt, ((build_subject_65x a tt).subfields.head?).map Subfield.code =
      some (ls "a")) ∧
    (∀ a tt,
      ((build_subject_65x a tt).subfields.filter (fun f => f.code == ls "0")).length ≤ 1 ∧
      ((build_subject_65x a tt).subfields.filter (fun f => f.code == ls "2")).length ≤ 1) ∧
    (∀ a tt, (build_subject_65x a tt).status = SubjectStatus.suggested ∧
      (build_subject_65x a tt).explanation = []) ∧
    (∀ A B C, posContains (ls "--") A = false → posContains (ls "--") B = false →
      posContains (ls "--") C = false → A.getLast? ≠ some '-' →
      B.getLast? ≠ some '-' → pyStrip A = A → pyStrip B = B → pyStrip C = C →
      parse_subdivisions (A ++ ls "--" ++ B ++ ls "--" ++ C) =
        [⟨ls "a", A⟩, ⟨classify_subdivision B, B⟩, ⟨classify_subdivision C, C⟩]) := by
  refine ⟨build_subfields_eq, ?_, ?_, fun a tt => ⟨rfl, rfl⟩, ?_⟩
  · intro a tt
    obtain ⟨v, rest, hp⟩ := parse_head a.label
    rw [build_subfields_eq, hp]
    rfl
  · intro a tt
    constructor
    · rw [build_subfields_eq]
      simp only [List.filter_append, parse_filter_zero, s2spec_filter_zero,
        List.nil_append, List.append_nil]
      exact uriOpt_filter_zero_len a.uri
    · rw [build_subfields_eq]
      simp only [List.filter_append, parse_filter_two, uriOpt_filter_two,
        List.nil_append, List.append_nil]
      exact s2spec_filter_two_len (asciiLower a.vocabulary)
  · intro A B C hA hB hC hA2 hB2 hsA hsB hsC
    have hA' : reSearchLit (ls "--") A = false := by rw [reSearchLit_eq_pos]; exact hA
    have hB' : reSearchLit (ls "--") B = false := by rw [reSearchLit_eq_pos]; exact hB
    have hC' : reSearchLit (ls "--") C = false := by rw [reSearchLit_eq_pos]; exact hC
    have e1 : A ++ ls "--" ++ B ++ ls "--" ++ C =
        A ++ '-' :: '-' :: (B ++ '-' :: '-' :: C) := by
      simp only [List.append_assoc]
      rfl
    rw [e1]
    unfold parse_subdivisions
    dsimp only
    rw [splitDD_append A _ hA' hA2, splitDD_append B _ hB' hB2, noDD_splitDD C hC']
    simp only [List.map_cons, List.map_nil, hsA, hsB, hsC]

/-- Witness for C6 at the concrete three-part heading Art--History--20th
century. -/
theorem c6_assembly_witness :
    parse_subdivisions (ls "Art" ++ ls "--" ++ ls "History" ++ ls "--" ++ ls "20th century") =
      [⟨ls "a", ls "Art"⟩, ⟨classify_subdivision (ls "History"), ls "History"⟩,
       ⟨classify_subdivision (ls "20th century"), ls "20th century"⟩] :=
  c6_assembly.2.2.2.2 (ls "Art") (ls "History") (ls "20th century") (by decide) (by decide)
    (by decide) (by decide) (by decide) (by decide) (by decide) (by decide)

/-- A whitespace-only string holds no double hyphen. -/
theorem allSpace_noDD (l : Str) (h : l.all isSpace = true) :
    reSearchLit (ls "--") l = false := by
  induction l with
  | nil => rfl
  | cons c rest ih =>
    rw [List.all_cons, Bool.and_eq_true] at h
    rw [reSearchLit, scanP, Bool.or_eq_false_iff]
    refine ⟨decide_eq_false ?_, ih h.2⟩
    intro heq
    have hc : c = '-' := by
      rw [show (ls "--").length = 2 from rfl, List.take_succ_cons] at heq
      exact (List.cons.injEq _ _ _ _ ▸ heq).1
    rw [hc] at h
    exact absurd h.1 (by decide)

/-- Stripping a whitespace-only string yields the empty string. -/
theorem pyStrip_allSpace (l : Str) (h : l.all isSpace = true) : pyStrip l = [] := by
  unfold pyStrip
  have h1 : l.dropWhile isSpace = [] :=
    List.dropWhile_eq_nil_iff.mpr (fun x hx => List.all_eq_true.mp h x hx)
  rw [h1]
  rfl

/-- C7: build_subject never throws for well-formed input — the embedded
function is total and any label string is acceptable; a label that is empty
or whitespace-only is not an error and degenerates to a single a subfield
with empty value, and the built record always carries at least that
subfield. -/
theorem c7_degenerate :
    (∀ label, label.all isSpace = true →
      parse_subdivisions label = [⟨ls "a", []⟩]) ∧
    (∀ a tt, (build_subject_65x a tt).subfields ≠ []) := by
  constructor
  · intro label h
    unfold parse_subdivisions
    dsimp only
    rw [noDD_splitDD label (allSpace_noDD label h)]
    simp only [List.map_cons, List.map_nil, pyStrip_allSpace label h]
  · intro a tt
    obtain ⟨v, rest, hp⟩ := parse_head a.label
    rw [build_subfields_eq, hp]
    simp

/-- Witness for C7 at the whitespace-only label of three blanks and at the
empty label. -/
theorem c7_degenerate_witness :
    parse_subdivisions (ls "   ") = [⟨ls "a", []⟩] ∧
      parse_subdivisions [] = [⟨ls "a", []⟩] :=
  ⟨c7_degenerate.1 (ls "   ") (by decide), c7_degenerate.1 [] (by decide)⟩

/-- C1 counterexample: a candidate whose vocabulary code is the empty string
falls into the fallback branch — its vocabulary is neither lcsh nor fast —
yet the built subject carries ind2 seven and NO source subfield at all,
because the Python truthiness test on the fallback subfield-2 value skips
the empty string; the claim's "exactly one subfield 2 whose value is that
lowercased vocabulary code" fails there. -/
theorem c1_cex_empty_vocab :
    (build_subject_65x ⟨ls "Art", [], []⟩ none).ind2 = ls "7" ∧
      ((build_subject_65x ⟨ls "Art", [], []⟩ none).subfields.filter
        (fun f => f.code == ls "2")) = [] ∧
      ¬([] : Str) = ls "lcsh" ∧ ¬([] : Str) = ls "fast" := by
  refine ⟨by decide, by decide, by decide, by decide⟩

/-- C1 amended: for every candidate, writing v for the lowercased vocabulary
code: if v is lcsh the subject has ind2 zero and no subfield 2; if v is fast
it has ind2 seven and exactly one subfield 2 with value fast; for any other
NON-EMPTY v it has ind2 seven and exactly one subfield 2 whose value is v;
a candidate whose vocabulary lowercases to the empty string gets ind2 seven
and no subfield 2. -/
theorem c1_vocabulary_config (a : AuthorityCandidate) (tt : Option Str) :
    (asciiLower a.vocabulary = ls "lcsh" →
      (build_subject_65x a tt).ind2 = ls "0" ∧
      (build_subject_65x a tt).subfields.filter (fun f => f.code == ls "2") = []) ∧
    (asciiLower a.vocabulary = ls "fast" →
      (build_subject_65x a tt).ind2 = ls "7" ∧
      (build_subject_65x a tt).subfields.filter (fun f => f.code == ls "2") =
        [⟨ls "2", ls "fast"⟩]) ∧
    (asciiLower a.vocabulary ≠ ls "lcsh" → asciiLower a.vocabulary ≠ ls "fast" →
      (build_subject_65x a tt).ind2 = ls "7") ∧
    (asciiLower a.vocabulary ≠ ls "lcsh" → asciiLower a.vocabulary ≠ ls "fast" →
      asciiLower a.vocabulary ≠ [] →
      (build_subject_65x a tt).subfields.filter (fun f => f.code == ls "2") =
        [⟨ls "2", asciiLower a.vocabulary⟩]) ∧
    (asciiLower a.vocabulary = [] →
      (build_subject_65x a tt).subfields.filter (fun f => f.code == ls "2") = []) := by
  have hind : (build_subject_65x a tt).ind2 = (vocabConfig (asciiLower a.vocabulary)).1 :=
    rfl
  have hfilter : (build_subject_65x a tt).subfields.filter (fun f => f.code == ls "2") =
      (s2spec (asciiLower a.vocabulary)).filter (fun f => f.code == ls "2") := by
    rw [build_subfields_eq]
    simp only [List.filter_append, parse_filter_two, uriOpt_filter_two,
      List.nil_append, List.append_nil]
  refine ⟨fun h => ⟨?_, ?_⟩, fun h => ⟨?_, ?_⟩, fun h1 h2 => ?_, fun h1 h2 h3 => ?_,
    fun h => ?_⟩
  · rw [hind, h]
    decide
  · rw [hfilter, h]
    rfl
  · rw [hind, h]
    decide
  · rw [hfilter, h]
    rfl
  · rw [hind]
    unfold vocabConfig
    rw [if_neg h1, if_neg h2]
  · rw [hfilter]
    unfold s2spec
    rw [if_neg h1, if_neg h2, if_neg h3]
    exact filter_code_single_eq _ _ _ (by decide)
  · rw [hfilter, h]
    rfl

/-- Witness for C1 applying the theorem at one lcsh, one fast and one other
vocabulary candidate. -/
theorem c1_vocabulary_config_witness :
    ((build_subject_65x ⟨ls "Art", [], ls "lcsh"⟩ none).ind2 = ls "0" ∧
      (build_subject_65x ⟨ls "Art", [], ls "lcsh"⟩ none).subfields.filter
        (fun f => f.code == ls "2") = []) ∧
    ((build_subject_65x ⟨ls "Art", [], ls "FAST"⟩ none).ind2 = ls "7" ∧
      (build_subject_65x ⟨ls "Art", [], ls "FAST"⟩ none).subfields.filter
        (fun f => f.code == ls "2") = [⟨ls "2", ls "fast"⟩]) ∧
    (build_subject_65x ⟨ls "Art", [], ls "gtt"⟩ none).subfields.filter
      (fun f => f.code == ls "2") = [⟨ls "2", ls "gtt"⟩] :=
  ⟨(c1_vocabulary_config ⟨ls "Art", [], ls "lcsh"⟩ none).1 (by decide),
   (c1_vocabulary_config ⟨ls "Art", [], ls "FAST"⟩ none).2.1 (by decide),
   by
    have := (c1_vocabulary_config ⟨ls "Art", [], ls "gtt"⟩ none).2.2.2.1
      (by decide) (by decide) (by decide)
    simpa using this⟩

theorem findSomeEq {α β : Type} (l : List α) (f g : α → Option β)
    (h : ∀ x ∈ l, f x = g x) : l.findSome? f = l.findSome? g := by
  induction l with
  | nil => rfl
  | cons a l ih =>
    have hfa := h a (by simp)
    cases hga : g a with
    | some b => simp [List.findSome?_cons, hfa, hga]
    | none =>
      simp only [List.findSome?_cons, hfa, hga]
      exact ih (fun x hx => h x (by simp [hx]))

/-- The option-returning scan is equivalent to the positional formulation:
it returns the first position's result in left-to-right order. -/
theorem scanO_eq (f : Str → Option Str) (l : Str) :
    scanO f l = (List.range (l.length + 1)).findSome? (fun i => f (l.drop i)) := by
  induction l with
  | nil =>
    show scanO f [] = (List.range 1).findSome? (fun i => f ([].drop i))
    rw [show List.range 1 = [0] from rfl]
    cases hf : f [] <;> simp [scanO, List.findSome?_cons, hf]
  | cons c rest ih =>
    conv_rhs => rw [List.length_cons, List.range_succ_eq_map]
    cases hf : f (c :: rest) with
    | some r => simp [scanO, hf, List.findSome?_cons]
    | none =>
      simp only [scanO, hf, List.findSome?_cons, List.drop_zero, List.findSome?_map]
      rw [ih]
      exact findSomeEq _ _ _ (fun i _ => by simp [Function.comp, List.drop_succ_cons])

/-- The anchored fst check of the scanning search coincides with the
positional one. -/
theorem fstMatchAt_drop (uri : Str) (i : Nat) :
    fstMatchAt (uri.drop i) = fstPosMatch uri i := by
  have e0 : uri[i]? = (uri.drop i)[0]? := by rw [List.getElem?_drop, Nat.add_zero]
  have e1 : uri[i + 1]? = (uri.drop i)[1]? := by rw [List.getElem?_drop]
  have e2 : uri[i + 2]? = (uri.drop i)[2]? := by rw [List.getElem?_drop]
  have e3 : uri[i + 3]? = (uri.drop i)[3]? := by rw [List.getElem?_drop]
  have ed : uri.drop (i + 3) = (uri.drop i).drop 3 := by rw [List.drop_drop]
  unfold fstPosMatch chLowerAt digAt
  rw [e0, e1, e2, e3, ed]
  generalize uri.drop i = t
  rcases t with _ | ⟨f, _ | ⟨s, _ | ⟨u, rest⟩⟩⟩
  · rfl
  · simp [fstMatchAt, Bool.and_false, Bool.false_and]
  · simp [fstMatchAt, Bool.and_false, Bool.false_and]
  · rcases rest with _ | ⟨d, rest2⟩ <;> simp [fstMatchAt]

theorem fstSearch_eq_pos (uri : Str) : fstSearch uri = posFstSearch uri := by
  rw [fstSearch, scanO_eq, posFstSearch]
  exact findSomeEq _ _ _ (fun i _ => fstMatchAt_drop uri i)

theorem splitSlash_ne_nil (l : Str) : splitSlash l ≠ [] := by
  cases l with
  | nil => simp [splitSlash]
  | cons c rest =>
    simp only [splitSlash]
    split_ifs
    · simp
    · rcases hsp : splitSlash rest with _ | ⟨s, ss⟩ <;> simp [hsp]

theorem splitSlash_no_slash (l : Str) (h : '/' ∉ l) : splitSlash l = [l] := by
  induction l with
  | nil => rfl
  | cons c rest ih =>
    have hc : c ≠ '/' := fun hh => h (by rw [hh]; exact List.mem_cons_self ..)
    have hr : '/' ∉ rest := fun hh => h (List.mem_cons_of_mem c hh)
    simp only [splitSlash]
    rw [if_neg hc, ih hr]

theorem splitSlash_singleton_inv (l t : Str) (h : splitSlash l = [t]) :
    l = t ∧ '/' ∉ l := by
  induction l generalizing t with
  | nil =>
    rw [show splitSlash [] = [[]] from rfl] at h
    obtain rfl : ([] : Str) = t := by injection h with h1
    exact ⟨rfl, by simp⟩
  | cons c rest ih =>
    by_cases hc : c = '/'
    · subst hc
      have hs : splitSlash ('/' :: rest) = [] :: splitSlash rest := by
        simp [splitSlash]
      rw [hs] at h
      injection h with h1 h2
      exact absurd h2 (splitSlash_ne_nil rest)
    · have hs : splitSlash (c :: rest) =
          match splitSlash rest with
          | s :: ss => (c :: s) :: ss
          | [] => [[c]] := by
        simp only [splitSlash]
        rw [if_neg hc]
      rcases hr : splitSlash rest with _ | ⟨s0, ss⟩
      · exact absurd hr (splitSlash_ne_nil rest)
      · rw [hr] at hs
        rw [hs] at h
        injection h with h1 h2
        subst h2
        obtain ⟨hrest, hslash⟩ := ih s0 hr
        subst hrest
        refine ⟨h1.symm ▸ rfl, ?_⟩
        intro hm
        rcases List.mem_cons.mp hm with hm | hm
        · exact hc hm.symm
        · exact hslash hm

/-- The last slash-delimited segment: it exists, holds no slash, and the
whole string is either that segment alone or something, a slash, then the
segment. -/
theorem splitSlash_getLast (l : Str) :
    ∃ seg, (splitSlash l).getLast? = some seg ∧ '/' ∉ seg ∧
      (l = seg ∨ ∃ pre, l = pre ++ '/' :: seg) := by
  induction l with
  | nil => exact ⟨[], rfl, by simp, Or.inl rfl⟩
  | cons c rest ih =>
    obtain ⟨seg, h1, h2, h3⟩ := ih
    by_cases hc : c = '/'
    · subst hc
      have hs : splitSlash ('/' :: rest) = [] :: splitSlash rest := by
        simp [splitSlash]
      refine ⟨seg, ?_, h2, ?_⟩
      · rw [hs]
        rcases hr : splitSlash rest with _ | ⟨s0, ss⟩
        · exact absurd hr (splitSlash_ne_nil rest)
        · rw [hr] at h1
          rw [List.getLast?_cons_cons]
          exact h1
      · right
        rcases h3 with h3 | ⟨pre, h3⟩
        · exact ⟨[], by rw [← h3]; rfl⟩
        · exact ⟨'/' :: pre, by rw [h3]; rfl⟩
    · have hs : splitSlash (c :: rest) =
          match splitSlash rest with
          | s :: ss => (c :: s) :: ss
          | [] => [[c]] := by
        simp only [splitSlash]
        rw [if_neg hc]
      rcases hr : splitSlash rest with _ | ⟨s0, ss⟩
      · exact absurd hr (splitSlash_ne_nil rest)
      · rw [hr] at hs
        rcases ss with _ | ⟨s1, ss2⟩
        · obtain ⟨hrest, hslash⟩ := splitSlash_singleton_inv rest s0 hr
          subst hrest
          refine ⟨c :: rest, by rw [hs]; rfl, ?_, Or.inl rfl⟩
          intro hm
          rcases List.mem_cons.mp hm with hm | hm
          · exact hc hm.symm
          · exact hslash hm
        · have hlast : ((c :: s0) :: s1 :: ss2).getLast? = some seg := by
            rw [List.getLast?_cons_cons]
            rw [hr] at h1
            rw [List.getLast?_cons_cons] at h1
            exact h1
          refine ⟨seg, by rw [hs]; exact hlast, h2, ?_⟩
          rcases h3 with h3 | ⟨pre, h3⟩
          · exfalso
            have := splitSlash_no_slash rest (h3 ▸ h2)
            rw [this] at hr
            injection hr with hx hy
            exact absurd hy.symm (by simp)
          · exact Or.inr ⟨c :: pre, by rw [h3]; rfl⟩

/-- C8: extract_authority_id returns, for every URI containing id.loc.gov,
the last slash-delimited path segment after stripping trailing slashes
(characterized: a slash-free segment that is the stripped URI itself or its
suffix after a slash); otherwise, for every URI containing fst
case-insensitively, the leftmost match of the case-insensitive regex fst
followed by digits, or none if there is no such match; otherwise none; with
the concrete identifiers of the claim. -/
theorem c8_extract_authority_id :
    (∀ uri, posContains (ls "id.loc.gov") uri = true →
      ∃ seg, extract_authority_id uri = some seg ∧ '/' ∉ seg ∧
        (rstripSlash uri = seg ∨ ∃ pre, rstripSlash uri = pre ++ '/' :: seg)) ∧
    (∀ uri, posContains (ls "id.loc.gov") uri = false →
      posContains (ls "fst") (asciiLower uri) = true →
      extract_authority_id uri = posFstSearch uri) ∧
    (∀ uri, posContains (ls "id.loc.gov") uri = false →
      posContains (ls "fst") (asciiLower uri) = false →
      extract_authority_id uri = none) ∧
    extract_authority_id (ls "http://id.loc.gov/authorities/subjects/sh85018909") =
      some (ls "sh85018909") ∧
    extract_authority_id (ls "(OCoLC)fst00844437") = some (ls "fst00844437") ∧
    extract_authority_id (ls "(OCoLC)fstX") = none := by
  refine ⟨?_, ?_, ?_, by decide, by decide, by decide⟩
  · intro uri h
    have hb : reSearchLit (ls "id.loc.gov") uri = true := by
      rw [reSearchLit_eq_pos]
      exact h
    have hne : uri ≠ [] := by
      intro he
      subst he
      exact absurd h (by decide)
    obtain ⟨seg, h1, h2, h3⟩ := splitSlash_getLast (rstripSlash uri)
    refine ⟨seg, ?_, h2, h3⟩
    unfold extract_authority_id
    rw [if_neg hne, if_pos hb]
    exact h1
  · intro uri hid hfst
    have hidb : reSearchLit (ls "id.loc.gov") uri = false := by
      rw [reSearchLit_eq_pos]
      exact hid
    have hfstb : reSearchLit (ls "fst") (asciiLower uri) = true := by
      rw [reSearchLit_eq_pos]
      exact hfst
    have hne : uri ≠ [] := by
      intro he
      subst he
      exact absurd hfst (by decide)
    unfold extract_authority_id
    rw [if_neg hne, if_neg (by rw [hidb]; exact Bool.false_ne_true), if_pos hfstb]
    exact fstSearch_eq_pos uri
  · intro uri hid hfst
    have hidb : reSearchLit (ls "id.loc.gov") uri = false := by
      rw [reSearchLit_eq_pos]
      exact hid
    have hfstb : reSearchLit (ls "fst") (asciiLower uri) = false := by
      rw [reSearchLit_eq_pos]
      exact hfst
    by_cases hne : uri = []
    · subst hne
      rfl
    · unfold extract_authority_id
      rw [if_neg hne, if_neg (by rw [hidb]; exact Bool.false_ne_true),
        if_neg (by rw [hfstb]; exact Bool.false_ne_true)]

/-- Witness for C8: the lcsh branch at a URI with a trailing slash, and the
fst branch at the OCLC-prefixed identifier. -/
theorem c8_extract_authority_id_witness :
    (∃ seg, extract_authority_id (ls "http://id.loc.gov/authorities/subjects/sh85018909/") =
        some seg ∧ '/' ∉ seg ∧
        (rstripSlash (ls "http://id.loc.gov/authorities/subjects/sh85018909/") = seg ∨
          ∃ pre, rstripSlash (ls "http://id.loc.gov/authorities/subjects/sh85018909/") =
            pre ++ '/' :: seg)) ∧
    extract_authority_id (ls "(OCoLC)fst00844437") =
      posFstSearch (ls "(OCoLC)fst00844437") :=
  ⟨c8_extract_authority_id.1 (ls "http://id.loc.gov/authorities/subjects/sh85018909/")
      (by decide),
   c8_extract_authority_id.2.1 (ls "(OCoLC)fst00844437") (by decide) (by decide)⟩

example : determine_tag (ls "China -- Civilization") none = ls "651" := by decide
example : determine_tag (ls "Kyoto, Japan") (some (ls "geographic")) = ls "651" := by decide
example : classify_subdivision (ls "Ming dynasty, 1368-1644") = ls "y" := by decide
example : classify_subdivision (ls "China") = ls "z" := by decide
example : classify_subdivision (ls "Handbooks") = ls "v" := by decide
example : classify_subdivision (ls "Social aspects") = ls "x" := by decide
example : classify_subdivision (ls "Literature") = ls "y" := by decide
example : splitDD (ls "A----B") = [ls "A", [], ls "B"] := by decide
example : extract_authority_id (ls "http://id.loc.gov/authorities/subjects/sh85018909") =
    some (ls "sh85018909") := by decide
example : extract_authority_id (ls "(OCoLC)fst00844437") = some (ls "fst00844437") := by decide
example :
    (build_subject_65x ⟨ls "Calligraphy, Chinese -- Ming-Qing dynasties, 1368-1912",
      ls "http://id.loc.gov/authorities/subjects/sh85018910", ls "lcsh"⟩
      (some (ls "topical"))).tag = ls "650" := by decide

end Marc
